import Mathlib

/-!
Verification of the source-location resolution engine in
`compiler/noirc_frontend/src/resolve_locations.rs`.

The file embeds the Rust code shallowly: each Rust function becomes a Lean
function over explicit table data carried by a `NodeInterner` structure.
Supporting types from the `noirc_errors` crate (`Location`, `Span`) and the
external lookup tables of the interner are not part of the given source
fragment; they are modelled from the specification where so marked.
-/

namespace Noir

/-- Stable arena index addressing a semantic node. -/
abbrev Index := Nat

/-- Identifier of a source file. -/
abbrev FileId := Nat

/-- Identifier of a bound definition. -/
abbrev DefinitionId := Nat

/-- Identifier of a function. -/
abbrev FuncId := Nat

/-- Identifier of a trait. -/
abbrev TraitId := Nat

/-- Identifier of an expression node (converts into `Index` in the source). -/
abbrev ExprId := Nat

/-- Modelled from the spec: a span is a range of positions within one source
file (`noirc_errors` is outside the given fragment). `stop` renders the
source's `end` bound, which is a reserved word here. -/
structure Span where
  start : Nat
  stop : Nat
deriving DecidableEq, Repr

/-- Modelled from the spec: span `A` contains span `B` iff `B`'s bounds lie
within `A`'s bounds. -/
def Span.contains (s other : Span) : Bool :=
  decide (s.start ≤ other.start) && decide (other.stop ≤ s.stop)

/-- Modelled from the spec: `is_smaller` is true iff this span covers fewer
source positions than the other; used only for tie-breaking. -/
def Span.is_smaller (s other : Span) : Bool :=
  decide (s.stop - s.start < other.stop - other.start)

/-- Modelled from the spec: a source location is a file id together with a
span. -/
structure Location where
  span : Span
  file : FileId
deriving DecidableEq, Repr

/-- Modelled from the spec: location containment is span containment within
the same file. -/
def Location.contains (l other : Location) : Bool :=
  l.span.contains other.span && decide (l.file = other.file)

/-- Constructor mirroring `Location::new(span, file)`. -/
def Location.new (span : Span) (file : FileId) : Location :=
  ⟨span, file⟩

/-- An identifier token: its textual contents and its span. In the source an
`Ident` wraps a `Spanned<String>` whose equality compares contents only. -/
structure Ident where
  contents : String
  span : Span
deriving DecidableEq, Repr

/-- Classification of what a bound identifier denotes. The source enumerates
more kinds; every kind other than `Function`, `Local` and `Global` falls into
the catch-all arm, rendered here by `Other`. -/
inductive DefinitionKind where
  | Function (func_id : FuncId)
  | Local (local_id : Nat)
  | Global (global_id : Nat)
  | Other
deriving DecidableEq, Repr

/-- Record describing one bound identifier occurrence. -/
structure DefinitionInfo where
  kind : DefinitionKind
  location : Location
deriving DecidableEq, Repr

/-- Per-function metadata; only the canonical defining location is consumed
by this fragment. -/
structure FuncMeta where
  location : Location
deriving DecidableEq, Repr

/-- A struct type: its declaring location and its ordered field names, as
returned by the source's `field_names()`. -/
structure StructType where
  location : Location
  field_names : List Ident
deriving DecidableEq, Repr

/-- Static type of an expression. Only the `Struct` variant is inspected by
this fragment; every other type falls into the catch-all arm. The source's
`Type::Struct(Shared<StructType>, generics)` carries generics that are
ignored here. -/
inductive Typ where
  | Struct (struct_type : StructType)
  | Other
deriving DecidableEq, Repr

/-- A method declared by a trait: its name token and declaration location. -/
structure TraitFunction where
  name : Ident
  location : Location
deriving DecidableEq, Repr

/-- A trait definition: declaration location and ordered method list. -/
structure TraitDef where
  location : Location
  methods : List TraitFunction
deriving DecidableEq, Repr

/-- A trait implementation record: its file, the trait-identifier token of
the `impl` header, and the id of the implemented trait. -/
structure TraitImpl where
  file : FileId
  ident : Ident
  trait_id : TraitId
deriving DecidableEq, Repr

/-- A function node; `as_expr` is the index of its body expression. -/
structure HirFunction where
  as_expr : ExprId
deriving DecidableEq, Repr

/-- An identifier expression, carrying the id of its definition. -/
structure HirIdent where
  id : DefinitionId
deriving DecidableEq, Repr

/-- A struct-literal expression; `rtype` renders the source's `r#type`. -/
structure HirConstructorExpression where
  rtype : StructType
deriving DecidableEq, Repr

/-- A member-access expression `lhs.rhs`. -/
structure HirMemberAccess where
  lhs : ExprId
  rhs : Ident
deriving DecidableEq, Repr

/-- A call expression; only the callee is consumed by this fragment. -/
structure HirCallExpression where
  func : ExprId
deriving DecidableEq, Repr

/-- Expression kinds. The source enumerates more kinds; every kind other
than the four handled ones falls into the catch-all arm, rendered by
`Other`. -/
inductive HirExpression where
  | Ident (ident : HirIdent)
  | Constructor (expr : HirConstructorExpression)
  | MemberAccess (expr_member_access : HirMemberAccess)
  | Call (expr_call : HirCallExpression)
  | Other
deriving DecidableEq, Repr

/-- Semantic-node kinds. The source enumerates more kinds; kinds other than
`Function` and `Expression` fall into the catch-all arm, rendered by
`Other`. -/
inductive Node where
  | Function (func : HirFunction)
  | Expression (expression : HirExpression)
  | Other
deriving DecidableEq, Repr

/-- The read-only snapshot of interner tables queried by the fragment.
`id_to_location` and `func_meta` are association lists standing for the
source's maps in their iteration order; `nodes` is the node arena addressed
by index; the remaining fields are the external lookups the fragment
consumes (Definition Table, name lookup, expression typing, the
function-to-trait association, Trait Registry, Trait Impl Registry). -/
structure NodeInterner where
  id_to_location : List (Index × Location)
  nodes : List Node
  definitions : DefinitionId → DefinitionInfo
  func_meta : List (FuncId × FuncMeta)
  function_names : FuncId → String
  id_types : ExprId → Typ
  function_to_trait : FuncId → Option TraitId
  traits : List (TraitId × TraitDef)
  trait_implementations : List TraitImpl

/-- Lookup in the Definition Table (`self.definition(id)`; external). -/
def NodeInterner.definition (i : NodeInterner) (id : DefinitionId) : DefinitionInfo :=
  i.definitions id

/-- Lookup in the Function Metadata Table (`self.function_meta(&func_id)`;
external). The source's indexing presumes the id valid; an absent id here
yields a dummy record. -/
def NodeInterner.function_meta (i : NodeInterner) (func_id : FuncId) : FuncMeta :=
  ((i.func_meta.find? (fun p => p.1 == func_id)).map (fun p => p.2)).getD ⟨⟨⟨0, 0⟩, 0⟩⟩

/-- Lookup of a function's textual name (`self.function_name(func_id)`;
external). -/
def NodeInterner.function_name (i : NodeInterner) (func_id : FuncId) : String :=
  i.function_names func_id

/-- Modelled from the spec: the external function-to-trait association
(`self.get_function_trait(func_id)`); the source also receives the self
type, which this fragment discards. -/
def NodeInterner.get_function_trait (i : NodeInterner) (func_id : FuncId) : Option TraitId :=
  i.function_to_trait func_id

/-- Lookup in the Trait Registry (`self.traits.get(&trait_id)`). -/
def NodeInterner.traits_get (i : NodeInterner) (trait_id : TraitId) : Option TraitDef :=
  (i.traits.find? (fun p => p.1 == trait_id)).map (fun p => p.2)

/-- Lookup of an expression's static type (`self.id_type(expr)`; external). -/
def NodeInterner.id_type (i : NodeInterner) (expr : ExprId) : Typ :=
  i.id_types expr

/-- One step of the candidate update performed inside the loop of
`find_location_index`: a containing entry becomes the candidate when there
is none yet or when its span is strictly smaller than the candidate's. -/
def locationCandidateStep (location : Location)
    (acc : Option (Index × Location)) (p : Index × Location) :
    Option (Index × Location) :=
  if p.2.contains location then
    match acc with
    | some current_location =>
        if p.2.span.is_smaller current_location.2.span then some p else acc
    | none => some p
  else acc

/-- Scans the interner for the item located at the given location, keeping
the containing entry with the smallest span (`find_location_index`). -/
def NodeInterner.find_location_index (i : NodeInterner) (location : Location) :
    Option Index :=
  (i.id_to_location.foldl (locationCandidateStep location) none).map (fun p => p.1)

/-- Resolves a member access `lhs.rhs` to the declaration of the accessed
struct field (`resolve_struct_member_access`). -/
def NodeInterner.resolve_struct_member_access (i : NodeInterner)
    (expr_member_access : HirMemberAccess) : Option Location :=
  let expr_lhs := expr_member_access.lhs
  let expr_rhs := expr_member_access.rhs
  match i.id_type expr_lhs with
  | Typ.Struct struct_type =>
      (struct_type.field_names.find?
          (fun field_name => field_name.contents == expr_rhs.contents)).map
        (fun found_field_name =>
          Location.new found_field_name.span struct_type.location.file)
  | Typ.Other => none

/-- Resolves the location of a trait from the location of one of its trait
impls (`try_resolve_trait_impl_location`). -/
def NodeInterner.try_resolve_trait_impl_location (i : NodeInterner)
    (location : Location) : Option Location :=
  (i.trait_implementations.find?
      (fun trait_impl =>
        decide (trait_impl.file = location.file) &&
          trait_impl.ident.span.contains location.span)).bind
    (fun trait_impl =>
      (i.traits_get trait_impl.trait_id).map (fun trait_ => trait_.location))

/-- Resolves the declaration of a trait method from a location inside a
function implementing it (`try_resolve_trait_method_declaration`). -/
def NodeInterner.try_resolve_trait_method_declaration (i : NodeInterner)
    (location : Location) : Option Location :=
  (i.func_meta.find? (fun p => p.2.location.contains location)).bind
    (fun p =>
      (i.get_function_trait p.1).bind (fun trait_id =>
        (i.traits_get trait_id).bind (fun trait_ =>
          ((trait_.methods.find?
              (fun method => method.name.contents == i.function_name p.1)).map
            (fun method => method.location)))))

mutual

/-- Fueled rendering of `resolve_location`: dispatches a node index,
recursing into a function's body expression. The outer `Option` is the fuel
guard (`none` = fuel exhausted) standing for the source's unbounded call
stack; the inner `Option Location` is the source's return value. -/
def resolve_location_fuel (i : NodeInterner) :
    Nat → Index → Option (Option Location)
  | 0, _ => none
  | fuel + 1, index =>
      match i.nodes.get? index with
      | none => some none
      | some (Node.Function func) => resolve_location_fuel i fuel func.as_expr
      | some (Node.Expression expression) =>
          resolve_expression_location_fuel i fuel expression
      | some Node.Other => some none
termination_by fuel _ => (fuel, 0)

/-- Fueled rendering of `resolve_expression_location`: dispatches by
expression kind, recursing into a call's callee. -/
def resolve_expression_location_fuel (i : NodeInterner) :
    Nat → HirExpression → Option (Option Location)
  | _, HirExpression.Ident ident =>
      let definition_info := i.definition ident.id
      match definition_info.kind with
      | DefinitionKind.Function func_id =>
          some (some (i.function_meta func_id).location)
      | DefinitionKind.Local _local_id => some (some definition_info.location)
      | DefinitionKind.Global _global_id => some (some definition_info.location)
      | DefinitionKind.Other => some none
  | _, HirExpression.Constructor expr => some (some expr.rtype.location)
  | _, HirExpression.MemberAccess expr_member_access =>
      some (i.resolve_struct_member_access expr_member_access)
  | fuel, HirExpression.Call expr_call =>
      resolve_location_fuel i fuel expr_call.func
  | _, HirExpression.Other => some none
termination_by fuel _ => (fuel, 1)

end

/-- Standard fuel: one unit more than the node count, enough for any acyclic
reference chain (proved below). -/
def NodeInterner.stdFuel (i : NodeInterner) : Nat :=
  i.nodes.length + 1

/-- The location a node index resolves to (`resolve_location`). -/
def NodeInterner.resolve_location (i : NodeInterner) (index : Index) :
    Option Location :=
  (resolve_location_fuel i i.stdFuel index).join

/-- The location an expression resolves to (`resolve_expression_location`). -/
def NodeInterner.resolve_expression_location (i : NodeInterner)
    (expression : HirExpression) : Option Location :=
  (resolve_expression_location_fuel i i.stdFuel expression).join

/-- Public definition query (`get_definition_location_from`). -/
def NodeInterner.get_definition_location_from (i : NodeInterner)
    (location : Location) : Option Location :=
  (((i.find_location_index location).bind
        (fun index => i.resolve_location index)).orElse
      (fun _ => i.try_resolve_trait_impl_location location)).orElse
    (fun _ => i.try_resolve_trait_method_declaration location)

/-- Public declaration query (`get_declaration_location_from`). -/
def NodeInterner.get_declaration_location_from (i : NodeInterner)
    (location : Location) : Option Location :=
  (i.try_resolve_trait_method_declaration location).orElse
    (fun _ =>
      ((i.find_location_index location).bind
          (fun index => i.resolve_location index)).bind
        (fun found_impl_location =>
          i.try_resolve_trait_method_declaration found_impl_location))

/-! Auxiliary notions: span size, the recursion graph of `resolve_location`,
and concrete table snapshots used to evaluate the development. -/

/-- Number of source positions covered by a span. -/
def spanLen (s : Span) : Nat := s.stop - s.start

/-- The node reference followed by one recursive call of `resolve_location`:
a function node refers to its body expression, a call expression to its
callee; every other node is terminal. -/
def nodeRef : Node → Option Index
  | Node.Function func => some func.as_expr
  | Node.Expression (HirExpression.Call expr_call) => some expr_call.func
  | _ => none

/-- One step along the function-body/call-callee reference graph stored in
the Node Store. -/
def NodeInterner.step (i : NodeInterner) (index : Index) : Option Index :=
  (i.nodes.get? index).bind nodeRef

/-- The edge relation of the reference graph. -/
def NodeInterner.stepRel (i : NodeInterner) (a b : Index) : Prop :=
  i.step a = some b

/-- Acyclicity of the reference graph: no index reaches itself through one
or more steps. -/
def NodeInterner.Acyclic (i : NodeInterner) : Prop :=
  ∀ a, ¬ Relation.TransGen i.stepRel a a

/-- An interner with every table empty. -/
def emptyInterner : NodeInterner where
  id_to_location := []
  nodes := []
  definitions := fun _ => ⟨DefinitionKind.Other, ⟨⟨0, 0⟩, 0⟩⟩
  func_meta := []
  function_names := fun _ => ""
  id_types := fun _ => Typ.Other
  function_to_trait := fun _ => none
  traits := []
  trait_implementations := []

/-- Three nested recorded spans in file 0: entry 0 covers `[0,10)`, entry 1
covers `[0,5)`, entry 2 covers `[0,2)`. -/
def nestedInterner : NodeInterner :=
  { emptyInterner with
      id_to_location := [(0, ⟨⟨0, 10⟩, 0⟩), (1, ⟨⟨0, 5⟩, 0⟩), (2, ⟨⟨0, 2⟩, 0⟩)] }

/-- Recorded spans with a size tie: entry 0 covers `[0,10)`, entries 1 and 2
cover the equally sized `[2,5)` and `[3,6)`. -/
def tieInterner : NodeInterner :=
  { emptyInterner with
      id_to_location := [(0, ⟨⟨0, 10⟩, 0⟩), (1, ⟨⟨2, 5⟩, 0⟩), (2, ⟨⟨3, 6⟩, 0⟩)] }

/-- A two-node store: node 0 is a function whose body is node 1, node 1 is
an identifier expression bound to the local definition with id 7; the
definition table also binds id 8 to the function with id 5. -/
def chainInterner : NodeInterner :=
  { emptyInterner with
      nodes := [Node.Function ⟨1⟩, Node.Expression (HirExpression.Ident ⟨7⟩)]
      id_to_location := [(0, ⟨⟨0, 50⟩, 0⟩), (1, ⟨⟨10, 20⟩, 0⟩)]
      definitions := fun d =>
        if d = 7 then ⟨DefinitionKind.Local 3, ⟨⟨42, 43⟩, 9⟩⟩
        else if d = 8 then ⟨DefinitionKind.Function 5, ⟨⟨60, 61⟩, 9⟩⟩
        else ⟨DefinitionKind.Other, ⟨⟨0, 0⟩, 0⟩⟩
      func_meta := [(5, ⟨⟨⟨100, 200⟩, 1⟩⟩)] }

/-- Trait tables: function 5 spans `[100,200)` of file 1, implements method
`to_field` of trait 11, whose declaration and method sites live in file 2;
one trait impl of trait 11 sits in file 1 with its trait token at
`[150,159)`. -/
def traitInterner : NodeInterner :=
  { emptyInterner with
      func_meta := [(5, ⟨⟨⟨100, 200⟩, 1⟩⟩)]
      function_names := fun f => if f = 5 then "to_field" else ""
      function_to_trait := fun f => if f = 5 then some 11 else none
      traits := [(11, ⟨⟨⟨300, 340⟩, 2⟩,
        [⟨⟨"other_method", ⟨301, 305⟩⟩, ⟨⟨301, 305⟩, 2⟩⟩,
         ⟨⟨"to_field", ⟨310, 318⟩⟩, ⟨⟨310, 318⟩, 2⟩⟩]⟩)]
      trait_implementations := [⟨1, ⟨"Fieldable", ⟨150, 159⟩⟩, 11⟩] }

/-- A struct with fields `x` at `[400,401)` and `y` at `[402,403)`, declared
in file 3. -/
def sampleStruct : StructType :=
  ⟨⟨⟨390, 420⟩, 3⟩, [⟨"x", ⟨400, 401⟩⟩, ⟨"y", ⟨402, 403⟩⟩]⟩

/-- Typing table: expression 33 has the sample struct type, everything else
a non-struct type. -/
def structInterner : NodeInterner :=
  { emptyInterner with
      id_types := fun e => if e = 33 then Typ.Struct sampleStruct else Typ.Other }

/-! Helper lemmas. -/

theorem is_smaller_iff (s o : Span) : s.is_smaller o = true ↔ spanLen s < spanLen o := by
  simp [Span.is_smaller, spanLen]

theorem find?_first {α : Type} (p : α → Bool) :
    ∀ (l1 : List α) (x : α) (l2 : List α),
      (∀ a ∈ l1, p a = false) → p x = true →
      (l1 ++ x :: l2).find? p = some x := by
  intro l1
  induction l1 with
  | nil =>
      intro x l2 _ hx
      rw [List.nil_append, List.find?_cons, hx]
  | cons a t ih =>
      intro x l2 h1 hx
      have ha : p a = false := h1 a (by simp)
      rw [List.cons_append, List.find?_cons, ha]
      exact ih x l2 (fun b hb => h1 b (List.mem_cons_of_mem a hb)) hx

theorem keys_nodup_eq {α β : Type} {l : List (α × β)}
    (h : (l.map Prod.fst).Nodup) {a b : α × β}
    (ha : a ∈ l) (hb : b ∈ l) (hk : a.1 = b.1) : a = b := by
  induction l with
  | nil => cases ha
  | cons c t ih =>
      rw [List.map_cons, List.nodup_cons] at h
      rcases List.mem_cons.mp ha with hac | hat <;>
        rcases List.mem_cons.mp hb with hbc | hbt
      · rw [hac, hbc]
      · exfalso
        apply h.1
        rw [← hac, hk]
        exact List.mem_map_of_mem Prod.fst hbt
      · exfalso
        apply h.1
        rw [← hbc, ← hk]
        exact List.mem_map_of_mem Prod.fst hat
      · exact ih h.2 hat hbt

theorem foldl_candidate_none (q : Location) :
    ∀ (l : List (Index × Location)) (acc : Option (Index × Location)),
      l.foldl (locationCandidateStep q) acc = none →
      acc = none ∧ ∀ p ∈ l, p.2.contains q = false := by
  intro l
  induction l with
  | nil =>
      intro acc h
      exact ⟨h, by simp⟩
  | cons p t ih =>
      intro acc h
      rw [List.foldl_cons] at h
      obtain ⟨hacc, ht⟩ := ih _ h
      by_cases hp : p.2.contains q = true
      · exfalso
        unfold locationCandidateStep at hacc
        rw [hp] at hacc
        simp at hacc
        cases hc : acc with
        | none => rw [hc] at hacc; simp at hacc
        | some c =>
            rw [hc] at hacc
            simp at hacc
            by_cases hs : p.2.span.is_smaller c.2.span = true <;> simp [hs] at hacc
      · have hpf : p.2.contains q = false := by
          cases hpc : p.2.contains q
          · rfl
          · exact absurd hpc hp
        refine ⟨?_, ?_⟩
        · unfold locationCandidateStep at hacc
          rw [hpf] at hacc
          simpa using hacc
        · intro r hr
          rcases List.mem_cons.mp hr with hrp | hrt
          · rw [hrp]; exact hpf
          · exact ht r hrt

theorem foldl_candidate_none_of_all (q : Location) :
    ∀ (l : List (Index × Location)),
      (∀ p ∈ l, p.2.contains q = false) →
      l.foldl (locationCandidateStep q) none = none := by
  intro l
  induction l with
  | nil => intro _; rfl
  | cons p t ih =>
      intro h
      rw [List.foldl_cons]
      have hpf : p.2.contains q = false := h p (by simp)
      have : locationCandidateStep q none p = none := by
        unfold locationCandidateStep
        rw [hpf]
        simp
      rw [this]
      exact ih (fun r hr => h r (by simp [hr]))

theorem foldl_candidate_keep (q : Location) :
    ∀ (l : List (Index × Location)) (d : Index × Location),
      (∀ p ∈ l, p.2.contains q = true → spanLen d.2.span ≤ spanLen p.2.span) →
      l.foldl (locationCandidateStep q) (some d) = some d := by
  intro l
  induction l with
  | nil => intro d _; rfl
  | cons p t ih =>
      intro d h
      rw [List.foldl_cons]
      have hstep : locationCandidateStep q (some d) p = some d := by
        unfold locationCandidateStep
        by_cases hp : p.2.contains q = true
        · rw [hp]
          simp only [if_true]
          have hle : spanLen d.2.span ≤ spanLen p.2.span := h p (by simp) hp
          have hns : p.2.span.is_smaller d.2.span ≠ true := by
            intro hcon
            rw [is_smaller_iff] at hcon
            omega
          simp [hns]
        · have hpf : p.2.contains q = false := by
            cases hpc : p.2.contains q
            · rfl
            · exact absurd hpc hp
          rw [hpf]
          simp
      rw [hstep]
      exact ih d (fun r hr => h r (by simp [hr]))

theorem foldl_candidate_some (q : Location) :
    ∀ (l : List (Index × Location)) (acc : Option (Index × Location))
      (d : Index × Location),
      l.foldl (locationCandidateStep q) acc = some d →
      (acc = some d ∨ (d ∈ l ∧ d.2.contains q = true ∧
          ∀ c, acc = some c → spanLen d.2.span < spanLen c.2.span)) ∧
      ∀ p ∈ l, p.2.contains q = true → spanLen d.2.span ≤ spanLen p.2.span := by
  intro l
  induction l with
  | nil =>
      intro acc d h
      exact ⟨Or.inl h, by simp⟩
  | cons p t ih =>
      intro acc d h
      rw [List.foldl_cons] at h
      obtain ⟨hdisj, hmin⟩ := ih _ _ h
      by_cases hp : p.2.contains q = true
      · cases hacc : acc with
        | none =>
            have hstep : locationCandidateStep q acc p = some p := by
              unfold locationCandidateStep
              rw [hp, hacc]
              simp
            rw [hstep] at hdisj
            have hble : spanLen d.2.span ≤ spanLen p.2.span := by
              rcases hdisj with hdp | ⟨_, _, hlt⟩
              · cases hdp; exact Nat.le_refl _
              · exact Nat.le_of_lt (hlt p rfl)
            refine ⟨?_, ?_⟩
            · rcases hdisj with hdp | ⟨hdt, hdc, _⟩
              · cases hdp
                exact Or.inr ⟨by simp, hp, by intro c hc; cases hc⟩
              · exact Or.inr ⟨by simp [hdt], hdc,
                  by intro c hc; cases hc⟩
            · intro r hr hrc
              rcases List.mem_cons.mp hr with hrp | hrt
              · rw [hrp]; exact hble
              · exact hmin r hrt hrc
        | some c =>
            by_cases hs : p.2.span.is_smaller c.2.span = true
            · have hstep : locationCandidateStep q acc p = some p := by
                unfold locationCandidateStep
                rw [hp, hacc]
                simp [hs]
              rw [hstep] at hdisj
              have hpc : spanLen p.2.span < spanLen c.2.span :=
                (is_smaller_iff _ _).mp hs
              have hble : spanLen d.2.span ≤ spanLen p.2.span := by
                rcases hdisj with hdp | ⟨_, _, hlt⟩
                · cases hdp; exact Nat.le_refl _
                · exact Nat.le_of_lt (hlt p rfl)
              refine ⟨?_, ?_⟩
              · rcases hdisj with hdp | ⟨hdt, hdc, hlt⟩
                · cases hdp
                  exact Or.inr ⟨by simp, hp,
                    by intro c' hc'; cases hc'; exact hpc⟩
                · exact Or.inr ⟨by simp [hdt], hdc,
                    by intro c' hc'; cases hc'
                       exact Nat.lt_trans (hlt p rfl) hpc⟩
              · intro r hr hrc
                rcases List.mem_cons.mp hr with hrp | hrt
                · rw [hrp]; exact hble
                · exact hmin r hrt hrc
            · have hstep : locationCandidateStep q acc p = some c := by
                unfold locationCandidateStep
                rw [hp, hacc]
                simp [hs]
              rw [hstep] at hdisj
              have hcp : spanLen c.2.span ≤ spanLen p.2.span := by
                have := (not_congr (is_smaller_iff p.2.span c.2.span)).mp hs
                omega
              have hble : spanLen d.2.span ≤ spanLen p.2.span := by
                rcases hdisj with hdp | ⟨_, _, hlt⟩
                · cases hdp; exact hcp
                · exact Nat.le_of_lt (Nat.lt_of_lt_of_le (hlt c rfl) hcp)
              refine ⟨?_, ?_⟩
              · rcases hdisj with hdp | ⟨hdt, hdc, hlt⟩
                · cases hdp; exact Or.inl rfl
                · exact Or.inr ⟨by simp [hdt], hdc,
                    by intro c' hc'; cases hc'; exact hlt c rfl⟩
              · intro r hr hrc
                rcases List.mem_cons.mp hr with hrp | hrt
                · rw [hrp]; exact hble
                · exact hmin r hrt hrc
      · have hpf : p.2.contains q = false := by
          cases hpc : p.2.contains q
          · rfl
          · exact absurd hpc hp
        have hstep : locationCandidateStep q acc p = acc := by
          unfold locationCandidateStep
          rw [hpf]
          simp
        rw [hstep] at hdisj
        refine ⟨?_, ?_⟩
        · rcases hdisj with hda | ⟨hdt, hdc, hlt⟩
          · exact Or.inl hda
          · exact Or.inr ⟨by simp [hdt], hdc, hlt⟩
        · intro r hr hrc
          rcases List.mem_cons.mp hr with hrp | hrt
          · rw [hrp] at hrc; rw [hrc] at hpf; cases hpf
          · exact hmin r hrt hrc

theorem find_location_index_first_min (i : NodeInterner) (q : Location)
    (l1 l2 : List (Index × Location)) (e : Index × Location)
    (hsplit : i.id_to_location = l1 ++ e :: l2)
    (he : e.2.contains q = true)
    (h1 : ∀ p ∈ l1, p.2.contains q = true → spanLen e.2.span < spanLen p.2.span)
    (h2 : ∀ p ∈ l2, p.2.contains q = true → spanLen e.2.span ≤ spanLen p.2.span) :
    i.find_location_index q = some e.1 := by
  unfold NodeInterner.find_location_index
  rw [hsplit, List.foldl_append, List.foldl_cons]
  cases hacc : List.foldl (locationCandidateStep q) none l1 with
  | none =>
      have hstep : locationCandidateStep q none e = some e := by
        unfold locationCandidateStep
        rw [he]
        simp
      rw [hstep, foldl_candidate_keep q l2 e h2]
      rfl
  | some c =>
      obtain ⟨hdisj, _⟩ := foldl_candidate_some q l1 none c hacc
      rcases hdisj with hcn | ⟨hcl, hcc, _⟩
      · cases hcn
      · have hlt : spanLen e.2.span < spanLen c.2.span := h1 c hcl hcc
        have hstep : locationCandidateStep q (some c) e = some e := by
          unfold locationCandidateStep
          rw [he]
          have hsm : e.2.span.is_smaller c.2.span = true := (is_smaller_iff _ _).mpr hlt
          simp [hsm]
        rw [hstep, foldl_candidate_keep q l2 e h2]
        rfl

/-- The claim of C1 fails as literally stated: with three nested recorded
entries, entry 1's span is strictly smaller than entry 0's and both contain
the query, yet `find_location_index` does not return entry 1's index (it
returns entry 2's, the innermost). -/
theorem find_location_index_not_always_B :
    ((0, (⟨⟨0, 10⟩, 0⟩ : Location)) ∈ nestedInterner.id_to_location ∧
     (1, (⟨⟨0, 5⟩, 0⟩ : Location)) ∈ nestedInterner.id_to_location ∧
     (Location.contains ⟨⟨0, 10⟩, 0⟩ ⟨⟨0, 1⟩, 0⟩) = true ∧
     (Location.contains ⟨⟨0, 5⟩, 0⟩ ⟨⟨0, 1⟩, 0⟩) = true ∧
     (Span.is_smaller ⟨0, 5⟩ ⟨0, 10⟩) = true) ∧
    nestedInterner.find_location_index ⟨⟨0, 1⟩, 0⟩ ≠ some 1 := by
  constructor
  · exact ⟨by decide, by decide, by decide, by decide, by decide⟩
  · decide

/-- C1 (amended): whenever entries `A` and `B` of the Location Table both
contain the query and `B`'s span is strictly smaller than `A`'s,
`find_location_index` never returns `A`'s index; in general it returns the
index of a containing entry whose span size is smallest among all
containing entries. -/
theorem find_location_index_innermost (i : NodeInterner) (q : Location)
    (A B : Index × Location)
    (hnd : (i.id_to_location.map Prod.fst).Nodup)
    (hA : A ∈ i.id_to_location) (hB : B ∈ i.id_to_location)
    (hAc : A.2.contains q = true) (hBc : B.2.contains q = true)
    (hsm : B.2.span.is_smaller A.2.span = true) :
    (∃ e ∈ i.id_to_location, e.2.contains q = true ∧
        (∀ p ∈ i.id_to_location, p.2.contains q = true →
          spanLen e.2.span ≤ spanLen p.2.span) ∧
        i.find_location_index q = some e.1) ∧
      i.find_location_index q ≠ some A.1 := by
  have hne : List.foldl (locationCandidateStep q) none i.id_to_location ≠ none := by
    intro hcon
    obtain ⟨-, hall⟩ := foldl_candidate_none q i.id_to_location none hcon
    rw [hall B hB] at hBc
    cases hBc
  cases hf : List.foldl (locationCandidateStep q) none i.id_to_location with
  | none => exact absurd hf hne
  | some d =>
      obtain ⟨hdisj, hmin⟩ := foldl_candidate_some q i.id_to_location none d hf
      rcases hdisj with hdn | ⟨hdl, hdc, -⟩
      · cases hdn
      · have hres : i.find_location_index q = some d.1 := by
          unfold NodeInterner.find_location_index
          rw [hf]
          rfl
        refine ⟨⟨d, hdl, hdc, hmin, hres⟩, ?_⟩
        rw [hres]
        intro hcon
        have hd1A : d.1 = A.1 := by
          injection hcon
        have hdA : d = A := keys_nodup_eq hnd hdl hA hd1A
        have hBlt : spanLen B.2.span < spanLen A.2.span := (is_smaller_iff _ _).mp hsm
        have hle : spanLen d.2.span ≤ spanLen B.2.span := hmin B hB hBc
        rw [hdA] at hle
        omega

/-- Witness for the amended C1 on the nested table: the query `[0,1)` is
contained in entries 0 and 2, entry 2's span is strictly smaller, and the
search returns the innermost entry's index, never index 0. -/
theorem find_location_index_innermost_witness :
    (∃ e ∈ nestedInterner.id_to_location,
        e.2.contains (⟨⟨0, 1⟩, 0⟩ : Location) = true ∧
        (∀ p ∈ nestedInterner.id_to_location,
          p.2.contains (⟨⟨0, 1⟩, 0⟩ : Location) = true →
          spanLen e.2.span ≤ spanLen p.2.span) ∧
        nestedInterner.find_location_index ⟨⟨0, 1⟩, 0⟩ = some e.1) ∧
      nestedInterner.find_location_index ⟨⟨0, 1⟩, 0⟩ ≠ some 0 :=
  find_location_index_innermost nestedInterner ⟨⟨0, 1⟩, 0⟩
    (0, ⟨⟨0, 10⟩, 0⟩) (2, ⟨⟨0, 2⟩, 0⟩)
    (by decide) (by decide) (by decide) (by decide) (by decide) (by decide)

/-- C9: when several containing entries share the same minimal span size,
`find_location_index` returns the index of the first such entry in the
table's iteration order; a later candidate of equal size never replaces
it. -/
theorem find_location_index_tie_first (i : NodeInterner) (q : Location)
    (l1 l2 : List (Index × Location)) (A B : Index × Location)
    (hnd : (i.id_to_location.map Prod.fst).Nodup)
    (hsplit : i.id_to_location = l1 ++ A :: l2)
    (hB : B ∈ l2)
    (hAc : A.2.contains q = true) (hBc : B.2.contains q = true)
    (heq : spanLen A.2.span = spanLen B.2.span)
    (hmin : ∀ p ∈ i.id_to_location, p.2.contains q = true →
      spanLen A.2.span ≤ spanLen p.2.span)
    (hfirst : ∀ p ∈ l1, p.2.contains q = true →
      spanLen A.2.span < spanLen p.2.span) :
    i.find_location_index q = some A.1 ∧ i.find_location_index q ≠ some B.1 := by
  have hres : i.find_location_index q = some A.1 := by
    refine find_location_index_first_min i q l1 l2 A hsplit hAc hfirst ?_
    intro p hp hpc
    exact hmin p (by rw [hsplit]; exact List.mem_append_right l1 (List.mem_cons_of_mem A hp)) hpc
  refine ⟨hres, ?_⟩
  rw [hres]
  intro hcon
  have hAB : A.1 = B.1 := by injection hcon
  rw [hsplit, List.map_append, List.map_cons] at hnd
  have hr := hnd.of_append_right
  rw [List.nodup_cons] at hr
  exact hr.1 (hAB ▸ List.mem_map_of_mem Prod.fst hB)

/-- Witness for C9 on the tie table: entries 1 and 2 both contain the query
`[3,4)` with equal span size 3 and nothing smaller contains it; the search
returns index 1, the first of the tie, and not index 2. -/
theorem find_location_index_tie_first_witness :
    tieInterner.find_location_index ⟨⟨3, 4⟩, 0⟩ = some 1 ∧
      tieInterner.find_location_index ⟨⟨3, 4⟩, 0⟩ ≠ some 2 :=
  find_location_index_tie_first tieInterner ⟨⟨3, 4⟩, 0⟩
    [(0, ⟨⟨0, 10⟩, 0⟩)] [(2, ⟨⟨3, 6⟩, 0⟩)]
    (1, ⟨⟨2, 5⟩, 0⟩) (2, ⟨⟨3, 6⟩, 0⟩)
    (by decide) (by decide) (by decide) (by decide) (by decide) (by decide)
    (by decide) (by decide)

/-- C3: `get_definition_location_from` tries the location-index/node path,
then the trait-impl resolver on the original query, then the trait-method
declaration resolver on the original query; the first stage yielding a
location wins, and the result is none exactly when all three stages
fail. -/
theorem get_definition_location_from_stages (i : NodeInterner) (q : Location) :
    (∀ l, (i.find_location_index q).bind (fun index => i.resolve_location index) = some l →
        i.get_definition_location_from q = some l) ∧
    ((i.find_location_index q).bind (fun index => i.resolve_location index) = none →
      ∀ l, i.try_resolve_trait_impl_location q = some l →
        i.get_definition_location_from q = some l) ∧
    ((i.find_location_index q).bind (fun index => i.resolve_location index) = none →
      i.try_resolve_trait_impl_location q = none →
        i.get_definition_location_from q = i.try_resolve_trait_method_declaration q) ∧
    (i.get_definition_location_from q = none ↔
      ((i.find_location_index q).bind (fun index => i.resolve_location index) = none ∧
       i.try_resolve_trait_impl_location q = none ∧
       i.try_resolve_trait_method_declaration q = none)) := by
  refine ⟨?_, ?_, ?_, ?_⟩
  · intro l h
    unfold NodeInterner.get_definition_location_from
    rw [h]
    rfl
  · intro h1 l h2
    unfold NodeInterner.get_definition_location_from
    rw [h1, h2]
    rfl
  · intro h1 h2
    unfold NodeInterner.get_definition_location_from
    rw [h1, h2]
    rfl
  · constructor
    · intro h
      unfold NodeInterner.get_definition_location_from at h
      cases h1 : (i.find_location_index q).bind (fun index => i.resolve_location index) with
      | some l => rw [h1] at h; simp [Option.orElse] at h
      | none =>
          cases h2 : i.try_resolve_trait_impl_location q with
          | some l => rw [h1, h2] at h; simp [Option.orElse] at h
          | none =>
              rw [h1, h2] at h
              simp [Option.orElse] at h
              exact ⟨rfl, rfl, h⟩
    · rintro ⟨h1, h2, h3⟩
      unfold NodeInterner.get_definition_location_from
      rw [h1, h2, h3]
      rfl

/-- Witness for C3 on the empty interner: every stage fails and the
definition query returns none. -/
theorem get_definition_location_from_stages_witness :
    emptyInterner.get_definition_location_from ⟨⟨0, 1⟩, 0⟩ = none :=
  (get_definition_location_from_stages emptyInterner ⟨⟨0, 1⟩, 0⟩).2.2.2.mpr
    ⟨by rfl, by rfl, by rfl⟩

/-- C2: `get_declaration_location_from` first tries the trait-method
declaration resolver on the original query; only when that fails does it
run the location-index/node path, and a location resolved there is fed to
the trait-method declaration resolver a second time; the result is none
exactly when both paths fail. -/
theorem get_declaration_location_from_stages (i : NodeInterner) (q : Location) :
    (∀ l, i.try_resolve_trait_method_declaration q = some l →
        i.get_declaration_location_from q = some l) ∧
    (i.try_resolve_trait_method_declaration q = none →
      i.get_declaration_location_from q =
        ((i.find_location_index q).bind (fun index => i.resolve_location index)).bind
          (fun found_impl_location =>
            i.try_resolve_trait_method_declaration found_impl_location)) ∧
    (i.get_declaration_location_from q = none ↔
      (i.try_resolve_trait_method_declaration q = none ∧
       ((i.find_location_index q).bind (fun index => i.resolve_location index)).bind
          (fun found_impl_location =>
            i.try_resolve_trait_method_declaration found_impl_location) = none)) := by
  refine ⟨?_, ?_, ?_⟩
  · intro l h
    unfold NodeInterner.get_declaration_location_from
    rw [h]
    rfl
  · intro h
    unfold NodeInterner.get_declaration_location_from
    rw [h]
    rfl
  · constructor
    · intro h
      unfold NodeInterner.get_declaration_location_from at h
      cases h1 : i.try_resolve_trait_method_declaration q with
      | some l => rw [h1] at h; simp [Option.orElse] at h
      | none =>
          rw [h1] at h
          simp [Option.orElse] at h
          refine ⟨rfl, ?_⟩
          cases hx : (i.find_location_index q).bind (fun index => i.resolve_location index) with
          | none => rfl
          | some l => exact h l hx
    · rintro ⟨h1, h2⟩
      unfold NodeInterner.get_declaration_location_from
      rw [h1, h2]
      rfl

/-- Witness for C2 on the empty interner: both paths fail and the
declaration query returns none. -/
theorem get_declaration_location_from_stages_witness :
    emptyInterner.get_declaration_location_from ⟨⟨0, 1⟩, 0⟩ = none :=
  (get_declaration_location_from_stages emptyInterner ⟨⟨0, 1⟩, 0⟩).2.2.mpr
    ⟨by rfl, by rfl⟩

/-- C4: an identifier expression resolves by the kind of its definition:
a function to the function's metadata location (the signature site), a
local or global to the definition record's own location, and any other kind
to none. -/
theorem resolve_expression_location_ident (i : NodeInterner) (ident : HirIdent) :
    (∀ func_id, (i.definition ident.id).kind = DefinitionKind.Function func_id →
        i.resolve_expression_location (HirExpression.Ident ident) =
          some (i.function_meta func_id).location) ∧
    (∀ local_id, (i.definition ident.id).kind = DefinitionKind.Local local_id →
        i.resolve_expression_location (HirExpression.Ident ident) =
          some (i.definition ident.id).location) ∧
    (∀ global_id, (i.definition ident.id).kind = DefinitionKind.Global global_id →
        i.resolve_expression_location (HirExpression.Ident ident) =
          some (i.definition ident.id).location) ∧
    ((i.definition ident.id).kind = DefinitionKind.Other →
        i.resolve_expression_location (HirExpression.Ident ident) = none) := by
  refine ⟨?_, ?_, ?_, ?_⟩
  · intro func_id h
    unfold NodeInterner.resolve_expression_location
    simp [resolve_expression_location_fuel, h]
  · intro local_id h
    unfold NodeInterner.resolve_expression_location
    simp [resolve_expression_location_fuel, h]
  · intro global_id h
    unfold NodeInterner.resolve_expression_location
    simp [resolve_expression_location_fuel, h]
  · intro h
    unfold NodeInterner.resolve_expression_location
    simp [resolve_expression_location_fuel, h]

/-- Witness for C4: in the sample tables, identifier 8 is bound to function
5 and resolves to the function's signature location; identifier 7 is bound
to a local and resolves to that definition's own location. -/
theorem resolve_expression_location_ident_witness :
    chainInterner.resolve_expression_location (HirExpression.Ident ⟨8⟩) =
        some ⟨⟨100, 200⟩, 1⟩ ∧
      chainInterner.resolve_expression_location (HirExpression.Ident ⟨7⟩) =
        some ⟨⟨42, 43⟩, 9⟩ :=
  ⟨(resolve_expression_location_ident chainInterner ⟨8⟩).1 5 (by decide),
   (resolve_expression_location_ident chainInterner ⟨7⟩).2.1 3 (by decide)⟩

/-- C5: the trait-method declaration resolver takes the first function in
stored order whose metadata location contains the query; it yields none
when no function contains the query or the containing function has no
associated trait, and otherwise the declaration location of the first
method of that trait whose name equals the function's name, none when no
name matches. -/
theorem try_resolve_trait_method_declaration_spec (i : NodeInterner) (q : Location) :
    ((∀ p ∈ i.func_meta, p.2.location.contains q = false) →
        i.try_resolve_trait_method_declaration q = none) ∧
    (∀ l1 func_id fm l2,
      i.func_meta = l1 ++ (func_id, fm) :: l2 →
      (∀ p ∈ l1, p.2.location.contains q = false) →
      fm.location.contains q = true →
      ((i.get_function_trait func_id = none →
          i.try_resolve_trait_method_declaration q = none) ∧
       (∀ trait_id t, i.get_function_trait func_id = some trait_id →
          i.traits_get trait_id = some t →
          (((∀ m ∈ t.methods,
              (m.name.contents == i.function_name func_id) = false) →
              i.try_resolve_trait_method_declaration q = none) ∧
           (∀ m1 meth m2, t.methods = m1 ++ meth :: m2 →
              (∀ m ∈ m1, (m.name.contents == i.function_name func_id) = false) →
              (meth.name.contents == i.function_name func_id) = true →
              i.try_resolve_trait_method_declaration q = some meth.location))))) := by
  constructor
  · intro h
    unfold NodeInterner.try_resolve_trait_method_declaration
    have hf : i.func_meta.find? (fun p => p.2.location.contains q) = none :=
      List.find?_eq_none.mpr (fun x hx => by simp [h x hx])
    rw [hf]
    rfl
  · intro l1 func_id fm l2 hsplit h1 hc
    have hf : i.func_meta.find? (fun p => p.2.location.contains q) =
        some (func_id, fm) := by
      rw [hsplit]
      exact find?_first _ l1 (func_id, fm) l2 (fun a ha => h1 a ha) hc
    constructor
    · intro hn
      unfold NodeInterner.try_resolve_trait_method_declaration
      simp [hf, hn]
    · intro trait_id t htr htg
      constructor
      · intro hm
        have hmf : t.methods.find?
            (fun method => method.name.contents == i.function_name func_id) = none :=
          List.find?_eq_none.mpr (fun x hx => by simp [hm x hx])
        unfold NodeInterner.try_resolve_trait_method_declaration
        simp [hf, htr, htg, hmf]
      · intro m1 meth m2 hms hm1 hmc
        have hmf : t.methods.find?
            (fun method => method.name.contents == i.function_name func_id) =
            some meth := by
          rw [hms]
          exact find?_first _ m1 meth m2 (fun a ha => hm1 a ha) hmc
        unfold NodeInterner.try_resolve_trait_method_declaration
        simp [hf, htr, htg, hmf]

/-- Witness for C5: a query inside function 5's span `[100,200)` resolves,
through trait 11, to the declaration location of the second method
`to_field`, skipping the first method whose name differs. -/
theorem try_resolve_trait_method_declaration_spec_witness :
    traitInterner.try_resolve_trait_method_declaration ⟨⟨120, 121⟩, 1⟩ =
      some ⟨⟨310, 318⟩, 2⟩ :=
  ((((try_resolve_trait_method_declaration_spec traitInterner ⟨⟨120, 121⟩, 1⟩).2
      [] 5 ⟨⟨⟨100, 200⟩, 1⟩⟩ [] rfl (by simp) (by decide)).2
      11 ⟨⟨⟨300, 340⟩, 2⟩,
        [⟨⟨"other_method", ⟨301, 305⟩⟩, ⟨⟨301, 305⟩, 2⟩⟩,
         ⟨⟨"to_field", ⟨310, 318⟩⟩, ⟨⟨310, 318⟩, 2⟩⟩]⟩ (by decide) (by decide)).2
      [⟨⟨"other_method", ⟨301, 305⟩⟩, ⟨⟨301, 305⟩, 2⟩⟩]
      ⟨⟨"to_field", ⟨310, 318⟩⟩, ⟨⟨310, 318⟩, 2⟩⟩ [] rfl (by decide) (by decide))

/-- C6: the trait-impl resolver scans the trait impl records in stored
order, selects the first whose file equals the query's file and whose
trait-identifier span contains the query span, and returns the referenced
trait's declaration location from the Trait Registry; it returns none when
no record matches. -/
theorem try_resolve_trait_impl_location_spec (i : NodeInterner) (q : Location) :
    ((∀ ti ∈ i.trait_implementations,
        (decide (ti.file = q.file) && ti.ident.span.contains q.span) = false) →
      i.try_resolve_trait_impl_location q = none) ∧
    (∀ l1 ti l2, i.trait_implementations = l1 ++ ti :: l2 →
      (∀ t ∈ l1, (decide (t.file = q.file) && t.ident.span.contains q.span) = false) →
      (decide (ti.file = q.file) && ti.ident.span.contains q.span) = true →
      i.try_resolve_trait_impl_location q =
        (i.traits_get ti.trait_id).map (fun trait_ => trait_.location)) := by
  constructor
  · intro h
    unfold NodeInterner.try_resolve_trait_impl_location
    have hf : i.trait_implementations.find?
        (fun trait_impl => decide (trait_impl.file = q.file) &&
          trait_impl.ident.span.contains q.span) = none :=
      List.find?_eq_none.mpr (fun x hx => by simp [h x hx])
    rw [hf]
    rfl
  · intro l1 ti l2 hsplit h1 hc
    have hf : i.trait_implementations.find?
        (fun trait_impl => decide (trait_impl.file = q.file) &&
          trait_impl.ident.span.contains q.span) = some ti := by
      rw [hsplit]
      exact find?_first _ l1 ti l2 (fun a ha => h1 a ha) hc
    unfold NodeInterner.try_resolve_trait_impl_location
    simp [hf]

/-- Witness for C6: the query at the trait token `[152,153)` of the stored
impl in file 1 resolves to trait 11's declaration location. -/
theorem try_resolve_trait_impl_location_spec_witness :
    traitInterner.try_resolve_trait_impl_location ⟨⟨152, 153⟩, 1⟩ =
      some ⟨⟨300, 340⟩, 2⟩ :=
  (try_resolve_trait_impl_location_spec traitInterner ⟨⟨152, 153⟩, 1⟩).2
    [] ⟨1, ⟨"Fieldable", ⟨150, 159⟩⟩, 11⟩ [] rfl (by simp) (by decide)

/-- C7: member access `lhs.rhs` yields none when the left-hand side's
static type is not a struct; on a struct type it yields the location built
from the span of the first field whose name equals the right-hand
identifier together with the struct's declaring file, and none when no
field name matches. -/
theorem resolve_struct_member_access_spec (i : NodeInterner)
    (expr_member_access : HirMemberAccess) :
    (i.id_type expr_member_access.lhs = Typ.Other →
        i.resolve_struct_member_access expr_member_access = none) ∧
    (∀ struct_type, i.id_type expr_member_access.lhs = Typ.Struct struct_type →
      (((∀ f ∈ struct_type.field_names,
            (f.contents == expr_member_access.rhs.contents) = false) →
          i.resolve_struct_member_access expr_member_access = none) ∧
       (∀ f1 fld f2, struct_type.field_names = f1 ++ fld :: f2 →
          (∀ f ∈ f1, (f.contents == expr_member_access.rhs.contents) = false) →
          (fld.contents == expr_member_access.rhs.contents) = true →
          i.resolve_struct_member_access expr_member_access =
            some (Location.new fld.span struct_type.location.file)))) := by
  constructor
  · intro h
    unfold NodeInterner.resolve_struct_member_access
    simp [h]
  · intro struct_type h
    constructor
    · intro hall
      unfold NodeInterner.resolve_struct_member_access
      simp [h]
      intro x hx
      simpa using hall x hx
    · intro f1 fld f2 hsplit h1 hc
      have hfind : struct_type.field_names.find?
          (fun field_name => field_name.contents == expr_member_access.rhs.contents) =
          some fld := by
        rw [hsplit]
        exact find?_first _ f1 fld f2 (fun a ha => h1 a ha) hc
      unfold NodeInterner.resolve_struct_member_access
      simp [h, hfind]

/-- Witness for C7: accessing field `y` of the sample struct through the
typed expression 33 yields the field-name span with the struct's file,
while accessing an absent field `z` yields none. -/
theorem resolve_struct_member_access_spec_witness :
    structInterner.resolve_struct_member_access ⟨33, ⟨"y", ⟨500, 501⟩⟩⟩ =
        some ⟨⟨402, 403⟩, 3⟩ ∧
      structInterner.resolve_struct_member_access ⟨33, ⟨"z", ⟨500, 501⟩⟩⟩ = none :=
  ⟨((resolve_struct_member_access_spec structInterner ⟨33, ⟨"y", ⟨500, 501⟩⟩⟩).2
      sampleStruct (by decide)).2 [⟨"x", ⟨400, 401⟩⟩] ⟨"y", ⟨402, 403⟩⟩ []
      rfl (by decide) (by decide),
   ((resolve_struct_member_access_spec structInterner ⟨33, ⟨"z", ⟨500, 501⟩⟩⟩).2
      sampleStruct (by decide)).1 (by decide)⟩

/-- C8: every query returns an optional value, with no failure path in the
embedding: when no recorded span contains the query, no trait impl matches
and no function span contains it, both entry points return a plain none; a
node index absent from the Node Store resolves to none, an unsupported node
kind resolves to none, and an unsupported expression kind resolves to
none. -/
theorem queries_return_option_never_fault (i : NodeInterner) (q : Location)
    (index : Index) :
    ((∀ p ∈ i.id_to_location, p.2.contains q = false) →
     (∀ ti ∈ i.trait_implementations,
        (decide (ti.file = q.file) && ti.ident.span.contains q.span) = false) →
     (∀ p ∈ i.func_meta, p.2.location.contains q = false) →
       i.get_definition_location_from q = none ∧
       i.get_declaration_location_from q = none) ∧
    (i.nodes.get? index = none → i.resolve_location index = none) ∧
    (i.nodes.get? index = some Node.Other → i.resolve_location index = none) ∧
    (i.resolve_expression_location HirExpression.Other = none) := by
  refine ⟨?_, ?_, ?_, ?_⟩
  · intro h1 h2 h3
    have hfind : i.find_location_index q = none := by
      unfold NodeInterner.find_location_index
      rw [foldl_candidate_none_of_all q _ h1]
      rfl
    have himpl : i.try_resolve_trait_impl_location q = none := by
      unfold NodeInterner.try_resolve_trait_impl_location
      have hf : i.trait_implementations.find?
          (fun trait_impl => decide (trait_impl.file = q.file) &&
            trait_impl.ident.span.contains q.span) = none :=
        List.find?_eq_none.mpr (fun x hx => by simp [h2 x hx])
      rw [hf]
      rfl
    have htm : i.try_resolve_trait_method_declaration q = none := by
      unfold NodeInterner.try_resolve_trait_method_declaration
      have hf : i.func_meta.find? (fun p => p.2.location.contains q) = none :=
        List.find?_eq_none.mpr (fun x hx => by simp [h3 x hx])
      rw [hf]
      rfl
    constructor
    · unfold NodeInterner.get_definition_location_from
      rw [hfind, himpl, htm]
      rfl
    · unfold NodeInterner.get_declaration_location_from
      rw [htm, hfind]
      rfl
  · intro h
    rw [List.get?_eq_getElem?] at h
    unfold NodeInterner.resolve_location NodeInterner.stdFuel
    simp [resolve_location_fuel, h]
  · intro h
    rw [List.get?_eq_getElem?] at h
    unfold NodeInterner.resolve_location NodeInterner.stdFuel
    simp [resolve_location_fuel, h]
  · unfold NodeInterner.resolve_expression_location
    simp [resolve_expression_location_fuel]

/-- Witness for C8 on the empty interner with the stale index 0: both
entry points return none and the node resolver returns none. -/
theorem queries_return_option_never_fault_witness :
    (emptyInterner.get_definition_location_from ⟨⟨4, 5⟩, 0⟩ = none ∧
      emptyInterner.get_declaration_location_from ⟨⟨4, 5⟩, 0⟩ = none) ∧
      emptyInterner.resolve_location 0 = none :=
  ⟨(queries_return_option_never_fault emptyInterner ⟨⟨4, 5⟩, 0⟩ 0).1
      (by simp [emptyInterner]) (by simp [emptyInterner]) (by simp [emptyInterner]),
   (queries_return_option_never_fault emptyInterner ⟨⟨4, 5⟩, 0⟩ 0).2.1 rfl⟩

theorem resolve_fuel_mono :
    ∀ fuel : Nat,
      (∀ (i : NodeInterner) (index : Index) (v : Option Location),
        resolve_location_fuel i fuel index = some v →
        ∀ fuel2, fuel ≤ fuel2 → resolve_location_fuel i fuel2 index = some v) ∧
      (∀ (i : NodeInterner) (e : HirExpression) (v : Option Location),
        resolve_expression_location_fuel i fuel e = some v →
        ∀ fuel2, fuel ≤ fuel2 → resolve_expression_location_fuel i fuel2 e = some v) := by
  intro fuel
  induction fuel with
  | zero =>
      constructor
      · intro i index v h
        simp [resolve_location_fuel] at h
      · intro i e v h fuel2 _
        cases e with
        | Ident ident =>
            simp [resolve_expression_location_fuel] at h ⊢
            exact h
        | Constructor expr =>
            simp [resolve_expression_location_fuel] at h ⊢
            exact h
        | MemberAccess ema =>
            simp [resolve_expression_location_fuel] at h ⊢
            exact h
        | Call expr_call =>
            simp [resolve_location_fuel, resolve_expression_location_fuel] at h
        | Other =>
            simp [resolve_expression_location_fuel] at h ⊢
            exact h
  | succ fuel ih =>
      have hloc : ∀ (i : NodeInterner) (index : Index) (v : Option Location),
          resolve_location_fuel i (fuel + 1) index = some v →
          ∀ fuel2, fuel + 1 ≤ fuel2 → resolve_location_fuel i fuel2 index = some v := by
        intro i index v h fuel2 hle
        obtain ⟨f2, rfl⟩ : ∃ f2, fuel2 = f2 + 1 := ⟨fuel2 - 1, by omega⟩
        have hle2 : fuel ≤ f2 := by omega
        rw [resolve_location_fuel] at h ⊢
        cases hn : i.nodes.get? index with
        | none => rw [hn] at h; exact h
        | some node =>
            cases node with
            | Function func =>
                rw [hn] at h
                exact ih.1 i func.as_expr v h f2 hle2
            | Expression expression =>
                rw [hn] at h
                exact ih.2 i expression v h f2 hle2
            | Other => rw [hn] at h; exact h
      refine ⟨hloc, ?_⟩
      intro i e v h fuel2 hle
      cases e with
      | Ident ident =>
          simp [resolve_expression_location_fuel] at h ⊢
          exact h
      | Constructor expr =>
          simp [resolve_expression_location_fuel] at h ⊢
          exact h
      | MemberAccess ema =>
          simp [resolve_expression_location_fuel] at h ⊢
          exact h
      | Call expr_call =>
          rw [show resolve_expression_location_fuel i (fuel + 1)
                (HirExpression.Call expr_call) =
              resolve_location_fuel i (fuel + 1) expr_call.func from by
            simp [resolve_expression_location_fuel]] at h
          obtain ⟨f2, rfl⟩ : ∃ f2, fuel2 = f2 + 1 := ⟨fuel2 - 1, by omega⟩
          rw [show resolve_expression_location_fuel i (f2 + 1)
                (HirExpression.Call expr_call) =
              resolve_location_fuel i (f2 + 1) expr_call.func from by
            simp [resolve_expression_location_fuel]]
          exact hloc i expr_call.func v h (f2 + 1) hle
      | Other =>
          simp [resolve_expression_location_fuel] at h ⊢
          exact h

theorem resolve_fuel_none_chain :
    ∀ (fuel : Nat) (i : NodeInterner) (index : Index),
      resolve_location_fuel i fuel index = none →
      ∃ f : Nat → Index, f 0 = index ∧
        ∀ k, k < fuel → i.step (f k) = some (f (k + 1)) := by
  intro fuel
  induction fuel with
  | zero =>
      intro i index _
      exact ⟨fun _ => index, rfl, by intro k hk; omega⟩
  | succ fuel ih =>
      intro i index h
      rw [resolve_location_fuel] at h
      cases hn : i.nodes.get? index with
      | none => rw [hn] at h; simp at h
      | some node =>
          cases node with
          | Function func =>
              rw [hn] at h
              obtain ⟨g, hg0, hgchain⟩ := ih i func.as_expr h
              refine ⟨fun k => Nat.casesOn k index g, rfl, ?_⟩
              intro k hk
              cases k with
              | zero =>
                  show i.step index = some (g 0)
                  rw [hg0]
                  unfold NodeInterner.step
                  rw [hn]
                  rfl
              | succ k => exact hgchain k (by omega)
          | Expression expression =>
              rw [hn] at h
              have h2 : resolve_expression_location_fuel i fuel expression = none := h
              cases expression with
              | Ident ident =>
                  rw [resolve_expression_location_fuel] at h2
                  cases hk : (i.definition ident.id).kind <;> simp [hk] at h2
              | Constructor expr =>
                  rw [resolve_expression_location_fuel] at h2
                  cases h2
              | MemberAccess ema =>
                  rw [resolve_expression_location_fuel] at h2
                  cases h2
              | Call expr_call =>
                  rw [resolve_expression_location_fuel] at h2
                  obtain ⟨g, hg0, hgchain⟩ := ih i expr_call.func h2
                  refine ⟨fun k => Nat.casesOn k index g, rfl, ?_⟩
                  intro k hk
                  cases k with
                  | zero =>
                      show i.step index = some (g 0)
                      rw [hg0]
                      unfold NodeInterner.step
                      rw [hn]
                      rfl
                  | succ k => exact hgchain k (by omega)
              | Other =>
                  rw [resolve_expression_location_fuel] at h2
                  cases h2
          | Other => rw [hn] at h; simp at h

theorem chain_transgen (i : NodeInterner) (f : Nat → Index) (n : Nat)
    (hch : ∀ k, k < n → i.step (f k) = some (f (k + 1))) :
    ∀ j k, j < k → k ≤ n → Relation.TransGen i.stepRel (f j) (f k) := by
  intro j k
  induction k with
  | zero => intro h1 _; exact absurd h1 (Nat.not_lt_zero j)
  | succ k ihk =>
      intro hjk hkn
      by_cases hjeq : j = k
      · subst hjeq
        exact Relation.TransGen.single (hch j (by omega))
      · have hjk2 : j < k := by omega
        exact (ihk hjk2 (by omega)).tail (hch k (by omega))

theorem resolve_location_fuel_total (i : NodeInterner) (hacyc : i.Acyclic)
    (index : Index) :
    ∃ v, resolve_location_fuel i (i.nodes.length + 1) index = some v := by
  cases hr : resolve_location_fuel i (i.nodes.length + 1) index with
  | some v => exact ⟨v, rfl⟩
  | none =>
      exfalso
      obtain ⟨f, hf0, hch⟩ := resolve_fuel_none_chain (i.nodes.length + 1) i index hr
      have hvalid : ∀ k, k < i.nodes.length + 1 → f k < i.nodes.length := by
        intro k hk
        have hs := hch k hk
        unfold NodeInterner.step at hs
        cases hg : i.nodes.get? (f k) with
        | none => rw [hg] at hs; cases hs
        | some node =>
            have := List.get?_eq_some.mp hg
            exact this.1
      have hne : ∀ j k, j < k → k ≤ i.nodes.length + 1 → f j ≠ f k := by
        intro j k hjk hkn heq
        have ht := chain_transgen i f (i.nodes.length + 1) hch j k hjk hkn
        rw [heq] at ht
        exact hacyc (f k) ht
      let g : Fin (i.nodes.length + 1) → Fin i.nodes.length :=
        fun k => ⟨f k.1, hvalid k.1 k.2⟩
      have hginj : Function.Injective g := by
        intro a b hab
        have hfab : f a.1 = f b.1 := congrArg Fin.val hab
        rcases Nat.lt_trichotomy a.1 b.1 with hlt | heq | hgt
        · exact absurd hfab (hne a.1 b.1 hlt (by omega))
        · exact Fin.ext heq
        · exact absurd hfab.symm (hne b.1 a.1 hgt (by omega))
      have hcard := Fintype.card_le_of_injective g hginj
      simp [Fintype.card_fin] at hcard

/-- C10: `resolve_location` recurses through function-body and call-callee
references without a visited set; when that reference graph is acyclic the
recursion terminates for every starting index: the fuel bound of the
embedding is never reached, the value is independent of any larger fuel,
and `resolve_location` returns it. -/
theorem resolve_location_terminates (i : NodeInterner) (hacyc : i.Acyclic)
    (index : Index) :
    ∃ v : Option Location,
      (∀ fuel, i.stdFuel ≤ fuel → resolve_location_fuel i fuel index = some v) ∧
      i.resolve_location index = v := by
  obtain ⟨v, hv⟩ := resolve_location_fuel_total i hacyc index
  refine ⟨v, ?_, ?_⟩
  · intro fuel hle
    exact (resolve_fuel_mono (i.nodes.length + 1)).1 i index v hv fuel hle
  · unfold NodeInterner.resolve_location
    rw [show i.stdFuel = i.nodes.length + 1 from rfl, hv]
    rfl

theorem chainInterner_step_cases :
    ∀ a b, chainInterner.stepRel a b → a = 0 ∧ b = 1 := by
  intro a b hab
  unfold NodeInterner.stepRel NodeInterner.step at hab
  rcases a with _ | (_ | n)
  · simp [chainInterner, emptyInterner, nodeRef] at hab
    exact ⟨rfl, hab.symm⟩
  · simp [chainInterner, emptyInterner, nodeRef] at hab
  · simp [chainInterner, emptyInterner] at hab

theorem chainInterner_acyclic : chainInterner.Acyclic := by
  intro a hta
  have hall : ∀ x y, Relation.TransGen chainInterner.stepRel x y → x = 0 ∧ y = 1 := by
    intro x y hxy
    induction hxy with
    | single h => exact chainInterner_step_cases _ _ h
    | tail _ hstep ih =>
        obtain ⟨-, hz1⟩ := ih
        obtain ⟨hz0, -⟩ := chainInterner_step_cases _ _ hstep
        rw [hz1] at hz0
        exact absurd hz0 one_ne_zero
  obtain ⟨h0, h1⟩ := hall a a hta
  rw [h0] at h1
  exact absurd h1 (by decide)

/-- Witness for C10 on the two-node store (a function whose body is a
terminal identifier expression): the reference graph is acyclic and the
recursion from index 0 terminates with a stable value. -/
theorem resolve_location_terminates_witness :
    ∃ v : Option Location,
      (∀ fuel, chainInterner.stdFuel ≤ fuel →
        resolve_location_fuel chainInterner fuel 0 = some v) ∧
      chainInterner.resolve_location 0 = v :=
  resolve_location_terminates chainInterner chainInterner_acyclic 0

end Noir
